import Mathlib

/-!
Shallow embedding of the task CRUD service in `Backend/main.py`.

The service stores tasks in a single relational table (`TaskDB`), exposes
create / list / get / update / delete handlers over it, and validates
request bodies (`TaskCreate`, `TaskUpdate`) before a handler runs.
Timestamps are modelled as integers (`datetime.utcnow()` becomes an explicit
`now : Int` argument), the database table becomes a list of rows plus the
autoincrement counter, and SQL constructs (`ilike`, `order_by`, `limit`,
`offset`, `count`) are translated to executable list functions.
-/

namespace TaskApi

/-- `class TaskStatus(str, Enum)`: the three allowed status values. -/
inductive TaskStatus where
  | pending
  | in_progress
  | completed
deriving DecidableEq, Repr

/-- `.value` of the enum member: the string stored in the `status` column. -/
def TaskStatus.value : TaskStatus → String
  | .pending => "pending"
  | .in_progress => "in_progress"
  | .completed => "completed"

/-- A row of the `tasks` table (`class TaskDB`).  The `status` column is a
plain string column (`String(50)`); handlers write `TaskStatus.value` into it.
`datetime` columns are modelled as `Int` timestamps. -/
structure TaskDB where
  id : Nat
  title : String
  description : Option String
  status : String
  due_date : Int
  created_at : Int
  updated_at : Int
deriving DecidableEq, Repr

/-- The SQLite database: the rows of the `tasks` table.  The integer
primary key is a rowid alias (no AUTOINCREMENT), so SQLite keeps no
separate counter: the next id is computed from the rows present. -/
structure Store where
  tasks : List TaskDB
deriving DecidableEq, Repr

/-- The freshly created database: no rows. -/
def initStore : Store := { tasks := [] }

/-- The id SQLite assigns to the next inserted row: one more than the
largest id currently in the table, and 1 for an empty table.  Deleting
the row with the largest id therefore frees that id for reuse by a later
insert (`id INTEGER PRIMARY KEY` without AUTOINCREMENT). -/
def nextRowId (s : Store) : Nat :=
  (s.tasks.map TaskDB.id).foldr max 0 + 1

/-- `class TaskOut(BaseModel)`: the task JSON returned by every handler.
Field-for-field the projection of a `TaskDB` row. -/
structure TaskOut where
  id : Nat
  title : String
  description : Option String
  status : String
  due_date : Int
  created_at : Int
  updated_at : Int
deriving DecidableEq, Repr

/-- `TaskOut.model_validate(task)`: read the row's attributes into the
response model. -/
def TaskOut.ofDB (t : TaskDB) : TaskOut :=
  { id := t.id, title := t.title, description := t.description,
    status := t.status, due_date := t.due_date,
    created_at := t.created_at, updated_at := t.updated_at }

/-- Outcome of one HTTP request: a success with its status code and body,
or an error status code (404 from `HTTPException`, 422 from request
validation). -/
inductive ApiResult (α : Type) where
  | ok (code : Nat) (val : α)
  | err (code : Nat)
deriving DecidableEq, Repr

/-- `class TaskCreate(TaskBase)` after validation: `status` has already been
defaulted to `pending` when the request omitted it. -/
structure TaskCreate where
  title : String
  description : Option String
  due_date : Int
  status : TaskStatus
deriving DecidableEq, Repr

/-- A create request body as received: `status` may be omitted. -/
structure RawTaskCreate where
  title : String
  description : Option String
  due_date : Int
  status : Option TaskStatus
deriving DecidableEq, Repr

/-- The `max_length=10_000` constraint on the optional `description`. -/
def descTooLong : Option String → Bool
  | some d => 10000 < d.length
  | none => false

/-- Request validation for `POST /tasks` (pydantic `TaskBase`/`TaskCreate`):
`title` must be 1–200 characters, `description` at most 10000 characters,
`status` defaults to `pending`.  Failure is the 422 response. -/
def validateTaskCreate (r : RawTaskCreate) : Except Nat TaskCreate :=
  if r.title.length < 1 then .error 422
  else if 200 < r.title.length then .error 422
  else if descTooLong r.description then .error 422
  else .ok { title := r.title, description := r.description,
             due_date := r.due_date,
             status := r.status.getD .pending }

/-- `class TaskUpdate(BaseModel)`: every field optional.  The handler only
looks at whether each field `is not None`, so an explicit `null` and an
omitted field behave identically and are both `none` here. -/
structure TaskUpdate where
  title : Option String := none
  description : Option String := none
  status : Option TaskStatus := none
  due_date : Option Int := none
deriving DecidableEq, Repr

/-- `db.get(TaskDB, task_id)`: primary-key lookup. -/
def dbGet (s : Store) (task_id : Nat) : Option TaskDB :=
  s.tasks.find? (fun t => t.id == task_id)

/-- Handler `create_task`: build the row with the SQLite-assigned id and
server timestamps, insert it, return 201 with the created record. -/
def create_task (payload : TaskCreate) (now : Int) (s : Store) :
    ApiResult TaskOut × Store :=
  let task : TaskDB :=
    { id := nextRowId s, title := payload.title,
      description := payload.description,
      status := payload.status.value, due_date := payload.due_date,
      created_at := now, updated_at := now }
  (.ok 201 (TaskOut.ofDB task), { tasks := s.tasks ++ [task] })

/-- `POST /tasks`: request validation, then the `create_task` handler.
A validation failure is a 422 response and the handler never runs. -/
def post_tasks (r : RawTaskCreate) (now : Int) (s : Store) :
    ApiResult TaskOut × Store :=
  match validateTaskCreate r with
  | .error code => (.err code, s)
  | .ok payload => create_task payload now s

/-- Handler `get_task` (`GET /tasks/{task_id}`): 200 with the record, or
404 when the id is absent. -/
def get_task (task_id : Nat) (s : Store) : ApiResult TaskOut × Store :=
  match dbGet s task_id with
  | none => (.err 404, s)
  | some t => (.ok 200 (TaskOut.ofDB t), s)

/-- Body of handler `update_task`: copy each field that `is not None` onto
the row, then unconditionally refresh `updated_at`. -/
def applyUpdate (payload : TaskUpdate) (now : Int) (t : TaskDB) : TaskDB :=
  let t1 := match payload.title with
            | some v => { t with title := v }
            | none => t
  let t2 := match payload.description with
            | some v => { t1 with description := some v }
            | none => t1
  let t3 := match payload.status with
            | some v => { t2 with status := v.value }
            | none => t2
  let t4 := match payload.due_date with
            | some v => { t3 with due_date := v }
            | none => t3
  { t4 with updated_at := now }

/-- Handler `update_task` (`PATCH /tasks/{task_id}`): 404 when the id is
absent; otherwise mutate the found row in place and return 200 with it. -/
def update_task (task_id : Nat) (payload : TaskUpdate) (now : Int)
    (s : Store) : ApiResult TaskOut × Store :=
  match dbGet s task_id with
  | none => (.err 404, s)
  | some t =>
    let t' := applyUpdate payload now t
    (.ok 200 (TaskOut.ofDB t'),
     { s with tasks := s.tasks.map (fun u => if u.id == task_id then t' else u) })

/-- Handler `delete_task` (`DELETE /tasks/{task_id}`): 404 when the id is
absent; otherwise remove the row and return 204. -/
def delete_task (task_id : Nat) (s : Store) : ApiResult Unit × Store :=
  match dbGet s task_id with
  | none => (.err 404, s)
  | some _ =>
    (.ok 204 (),
     { s with tasks := s.tasks.filter (fun t => t.id != task_id) })

/-- The four column names accepted by the `sort` query parameter
(`pattern="^(id|due_date|created_at|updated_at)$"`). -/
inductive SortCol where
  | id
  | due_date
  | created_at
  | updated_at
deriving DecidableEq, Repr

/-- The two values accepted by the `order` query parameter. -/
inductive SortOrder where
  | asc
  | desc
deriving DecidableEq, Repr

/-- Query parameters of `GET /tasks`, with the declared defaults. -/
structure ListParams where
  status_filter : Option (List TaskStatus) := none
  q : Option String := none
  task_id : Option Nat := none
  limit : Nat := 20
  offset : Nat := 0
  sort : SortCol := .due_date
  order : SortOrder := .asc
deriving Repr

/-- Python `str.lower()` of the characters of a string, as used by SQL
`ilike` (compare both sides lowercased). -/
def lowerChars (s : String) : List Char := s.data.map Char.toLower

/-- Python `q.strip()`: drop whitespace from both ends. -/
def pyStrip (s : String) : String :=
  String.mk (((s.data.dropWhile Char.isWhitespace).reverse.dropWhile
      Char.isWhitespace).reverse)

/-- SQL `LIKE` pattern matching on character lists: `%` matches any
sequence (the rest of the pattern must match some suffix), `_` matches any
single character, anything else matches itself. -/
def likeMatch : List Char → List Char → Bool
  | [], cs => cs.isEmpty
  | '%' :: ps, cs => cs.tails.any (fun suf => likeMatch ps suf)
  | '_' :: _, [] => false
  | '_' :: ps, _ :: cs => likeMatch ps cs
  | _ :: _, [] => false
  | p :: ps, c :: cs => p == c && likeMatch ps cs

/-- `TaskDB.title.ilike(f"%{search}%")`: case-insensitive LIKE against the
pattern `%search%`. -/
def ilikeTitle (search : String) (title : String) : Bool :=
  likeMatch (lowerChars ("%" ++ search ++ "%")) (lowerChars title)

/-- The WHERE clause accumulated by `list_tasks`: status membership when the
`status` list is non-empty, exact id match, and the title search — `if q:`
skips a falsy (empty) `q`, and a `q` that strips to nothing adds no clause. -/
def matchesFilters (p : ListParams) (t : TaskDB) : Bool :=
  (match p.status_filter with
   | some ss =>
     if ss.isEmpty then true
     else (ss.map TaskStatus.value).contains t.status
   | none => true) &&
  (match p.task_id with
   | some n => t.id == n
   | none => true) &&
  (match p.q with
   | some qs =>
     if qs.data.isEmpty then true
     else
       let search := pyStrip qs
       if search.data.isEmpty then true
       else ilikeTitle search t.title
   | none => true)

/-- `getattr(TaskDB, sort)`: the column the rows are ordered by. -/
def sortKey : SortCol → TaskDB → Int
  | .id, t => (t.id : Int)
  | .due_date, t => t.due_date
  | .created_at, t => t.created_at
  | .updated_at, t => t.updated_at

/-- `sort_col.asc()` / `sort_col.desc()`: the comparison the ORDER BY
clause imposes between two rows. -/
def sortLE (col : SortCol) (ord : SortOrder) (a b : TaskDB) : Bool :=
  match ord with
  | .asc => decide (sortKey col a ≤ sortKey col b)
  | .desc => decide (sortKey col b ≤ sortKey col a)

/-- `class TaskListOut(BaseModel)`: total matching count plus the page. -/
structure TaskListOut where
  total : Nat
  items : List TaskOut
deriving DecidableEq, Repr

/-- Handler `list_tasks` (`GET /tasks`): filter, order (ORDER BY is any
sort by the requested key; insertion sort here), count the ordered query
before pagination, then apply OFFSET and LIMIT to produce the page. -/
def list_tasks (p : ListParams) (s : Store) : TaskListOut :=
  let filtered := s.tasks.filter (matchesFilters p)
  let ordered := filtered.insertionSort (fun a b => sortLE p.sort p.order a b)
  let total := ordered.length
  let items := (ordered.drop p.offset).take p.limit
  { total := total, items := items.map TaskOut.ofDB }

/-- The sort key read off a returned record (same columns as `sortKey`). -/
def TaskOut.sortKeyOut : SortCol → TaskOut → Int
  | .id, o => (o.id : Int)
  | .due_date, o => o.due_date
  | .created_at, o => o.created_at
  | .updated_at, o => o.updated_at

/-- The ORDER BY comparison, read off two returned records. -/
def sortLEOut (col : SortCol) (ord : SortOrder) (a b : TaskOut) : Bool :=
  match ord with
  | .asc => decide (a.sortKeyOut col ≤ b.sortKeyOut col)
  | .desc => decide (b.sortKeyOut col ≤ a.sortKeyOut col)

/-- Case-insensitive substring containment, the comparison the spec's
sentence "a case-insensitive substring match on title" describes.  Used to
compare the handler's actual filter against that reading. -/
def containsCI (hay needle : String) : Bool :=
  decide ((lowerChars needle) <:+: (lowerChars hay))

/-- The title predicate the q filter actually applies: strip the query;
a query that strips to nothing filters nothing, otherwise the title must
match the case-insensitive LIKE pattern `%stripped%`. -/
def qTitleMatches (qs : String) (title : String) : Bool :=
  let search := pyStrip qs
  if search.data.isEmpty then true else ilikeTitle search title

/-- One incoming mutating request: create, partial update, or delete. -/
inductive Op where
  | create (r : RawTaskCreate)
  | update (task_id : Nat) (payload : TaskUpdate)
  | delete (task_id : Nat)
deriving Repr

/-- The store after handling one request at wall-clock time `now`
(responses discarded; list and get do not change the store). -/
def execOp (op : Op) (now : Int) (s : Store) : Store :=
  match op with
  | .create r => (post_tasks r now s).2
  | .update task_id payload => (update_task task_id payload now s).2
  | .delete task_id => (delete_task task_id s).2

/-- The store after a sequence of timestamped requests. -/
def execSeq : List (Op × Int) → Store → Store
  | [], s => s
  | x :: rest, s => execSeq rest (execOp x.1 x.2 s)

/-- The request timestamps are nondecreasing, starting at or after `c`
(the server clock never runs backwards between requests). -/
def MonoFrom (c : Int) : List (Op × Int) → Prop
  | [] => True
  | x :: rest => c ≤ x.2 ∧ MonoFrom x.2 rest

/-- The `status` column holds one of the three enumerated values. -/
def statusOk (t : TaskDB) : Prop :=
  t.status = "pending" ∨ t.status = "in_progress" ∨ t.status = "completed"

/-- Invariant of a database state at server clock `c`: every row has a
valid status, `created_at ≤ updated_at ≤ c`, and ids are pairwise
distinct (the integer primary key). -/
structure Inv (c : Int) (s : Store) : Prop where
  status_ok : ∀ t ∈ s.tasks, statusOk t
  times : ∀ t ∈ s.tasks, t.created_at ≤ t.updated_at ∧ t.updated_at ≤ c
  ids_nodup : (s.tasks.map TaskDB.id).Nodup

/-- A store holding three tasks, used for the spec's concrete pagination
scenario (3 stored tasks, pages of 2). -/
def threeTasks : Store :=
  { tasks :=
      [{ id := 1, title := "alpha", description := none, status := "pending",
         due_date := 10, created_at := 1, updated_at := 1 },
       { id := 2, title := "beta", description := some "b", status := "in_progress",
         due_date := 20, created_at := 2, updated_at := 2 },
       { id := 3, title := "gamma", description := none, status := "completed",
         due_date := 30, created_at := 3, updated_at := 3 }] }

/-- A store holding one task titled "ba", used to separate the handler's
stripped-query search from a literal substring match. -/
def qStore : Store :=
  { tasks :=
      [{ id := 1, title := "ba", description := none, status := "pending",
         due_date := 5, created_at := 0, updated_at := 0 }] }

/-- A sample timestamped request sequence: create, update the status,
create another task, delete the first. -/
def demoOps : List (Op × Int) :=
  [(.create { title := "a", description := none, due_date := 5,
              status := none }, 0),
   (.update 1 { status := some .completed }, 1),
   (.create { title := "b", description := some "d", due_date := 6,
              status := some .in_progress }, 1),
   (.delete 1, 2)]

/-- A store holding one task with a non-null description. -/
def descStore : Store :=
  { tasks :=
      [{ id := 1, title := "a", description := some "keep",
         status := "pending", due_date := 2, created_at := 0,
         updated_at := 0 }] }

/-- A request sequence exhibiting id reuse: create a task (it gets id 1),
delete it, create another — SQLite assigns the freed id 1 again. -/
def cexOps : List (Op × Int) :=
  [(.create { title := "a", description := none, due_date := 5,
              status := none }, 0),
   (.delete 1, 1),
   (.create { title := "b", description := none, due_date := 6,
              status := none }, 2)]

/-! ### Helper lemmas -/

/-- Validation succeeds exactly on the declared field limits, and then
returns the payload with `status` defaulted. -/
theorem validateTaskCreate_ok (r : RawTaskCreate)
    (htitle1 : 1 ≤ r.title.length) (htitle2 : r.title.length ≤ 200)
    (hdesc : descTooLong r.description = false) :
    validateTaskCreate r =
      .ok { title := r.title, description := r.description,
            due_date := r.due_date, status := r.status.getD .pending } := by
  unfold validateTaskCreate
  rw [if_neg (by omega), if_neg (by omega), if_neg (by simp [hdesc])]

/-- A primary-key lookup that succeeds returns a row bearing that key. -/
theorem dbGet_id {s : Store} {task_id : Nat} {t : TaskDB}
    (h : dbGet s task_id = some t) : t.id = task_id := by
  have := List.find?_some h
  simpa using this

/-- A primary-key lookup that succeeds returns a stored row. -/
theorem dbGet_mem {s : Store} {task_id : Nat} {t : TaskDB}
    (h : dbGet s task_id = some t) : t ∈ s.tasks :=
  List.mem_of_find?_eq_some h

/-- Every stored id is at most the running maximum. -/
theorem le_foldr_max {l : List Nat} {a : Nat} (h : a ∈ l) :
    a ≤ l.foldr max 0 := by
  induction l with
  | nil => cases h
  | cons b l ih =>
    rcases List.mem_cons.mp h with rfl | h
    · exact le_max_left _ _
    · exact le_trans (ih h) (le_max_right _ _)

/-- The id SQLite assigns next (current max + 1) is not an id of any row
currently in the table. -/
theorem nextRowId_fresh {s : Store} {t : TaskDB} (h : t ∈ s.tasks) :
    t.id ≠ nextRowId s := by
  have := le_foldr_max (List.mem_map_of_mem TaskDB.id h)
  unfold nextRowId
  omega

/-!  ### C1  -/

/-- C1: a create request whose fields are valid (title 1–200 characters,
description at most 10000, a due date, optional status) succeeds with 201;
the returned record carries the input's title, description, due date and
status — pending when the request omitted it — with server-assigned id and
created_at/updated_at; and fetching the returned id yields that record. -/
theorem create_valid_roundtrip (r : RawTaskCreate) (now : Int) (s : Store)
    (htitle1 : 1 ≤ r.title.length) (htitle2 : r.title.length ≤ 200)
    (hdesc : descTooLong r.description = false) :
    ∃ out s',
      post_tasks r now s = (.ok 201 out, s') ∧
      out.title = r.title ∧ out.description = r.description ∧
      out.due_date = r.due_date ∧
      out.status = (r.status.getD .pending).value ∧
      (r.status = none → out.status = "pending") ∧
      out.id = nextRowId s ∧ out.created_at = now ∧ out.updated_at = now ∧
      get_task out.id s' = (.ok 200 out, s') := by
  simp only [post_tasks, validateTaskCreate_ok r htitle1 htitle2 hdesc]
  refine ⟨_, _, rfl, rfl, rfl, rfl, rfl, ?_, rfl, rfl, rfl, ?_⟩
  · intro h
    rw [h]
    rfl
  · show get_task (nextRowId s) _ = _
    unfold get_task dbGet
    rw [List.find?_append,
        List.find?_eq_none.mpr (fun t ht => by simpa using nextRowId_fresh ht)]
    simp

/-- Witness for C1 at a concrete request against the fresh store. -/
theorem create_valid_roundtrip_witness :
    ∃ out s',
      post_tasks { title := "t", description := none, due_date := 3,
                   status := none } 7 initStore = (.ok 201 out, s') ∧
      out.title = "t" ∧ out.description = none ∧
      out.due_date = 3 ∧
      out.status = ((none : Option TaskStatus).getD .pending).value ∧
      ((none : Option TaskStatus) = none → out.status = "pending") ∧
      out.id = nextRowId initStore ∧ out.created_at = 7 ∧ out.updated_at = 7 ∧
      get_task out.id s' = (.ok 200 out, s') :=
  create_valid_roundtrip
    { title := "t", description := none, due_date := 3, status := none }
    7 initStore (by decide) (by decide) rfl

/-!  ### C2  -/

/-- C2: creating with an empty title, a title above 200 characters, or a
description above 10000 characters fails with 422 and leaves the store
unchanged; a request meeting those limits passes validation. -/
theorem create_validation (r : RawTaskCreate) (now : Int) (s : Store) :
    ((r.title.length = 0 ∨ 200 < r.title.length ∨
        (∃ d, r.description = some d ∧ 10000 < d.length)) →
      post_tasks r now s = (.err 422, s)) ∧
    ((1 ≤ r.title.length ∧ r.title.length ≤ 200 ∧
        (∀ d, r.description = some d → d.length ≤ 10000)) →
      ∃ payload, validateTaskCreate r = .ok payload) := by
  constructor
  · rintro (h | h | ⟨d, hd, hlen⟩)
    · unfold post_tasks validateTaskCreate
      rw [if_pos (by omega)]
    · unfold post_tasks validateTaskCreate
      rw [if_neg (by omega), if_pos (by omega)]
    · unfold post_tasks validateTaskCreate
      split_ifs with h1 h2 h3 <;> try rfl
      exact absurd (by simp [descTooLong, hd, hlen]) h3
  · rintro ⟨h1, h2, h3⟩
    have hdesc : descTooLong r.description = false := by
      cases hd : r.description with
      | none => rfl
      | some d =>
        have := h3 d hd
        simp [descTooLong]
        omega
    exact ⟨_, validateTaskCreate_ok r h1 h2 hdesc⟩

/-- Witness for C2: an empty title is rejected with 422 and the store is
untouched; a valid request passes validation. -/
theorem create_validation_witness :
    post_tasks { title := "", description := none, due_date := 0,
                 status := none } 0 initStore = (.err 422, initStore) ∧
    ∃ payload,
      validateTaskCreate
        { title := "ok", description := some "d", due_date := 0,
          status := some .completed } = .ok payload :=
  ⟨(create_validation
      { title := "", description := none, due_date := 0, status := none }
      0 initStore).1 (Or.inl rfl),
   (create_validation
      { title := "ok", description := some "d", due_date := 0,
        status := some .completed }
      0 initStore).2 ⟨by decide, by decide, by intro d hd; cases hd; decide⟩⟩

/-!  ### C6  -/

/-- C6: fetching, partially updating or deleting an id that is not in the
store returns 404 and leaves the store unchanged; and after any delete of
an id, that id is no longer in the store (so a deleted id keeps yielding
404). -/
theorem notfound_404 (task_id : Nat) (s : Store)
    (habs : dbGet s task_id = none) (payload : TaskUpdate) (now : Int) :
    get_task task_id s = (.err 404, s) ∧
    update_task task_id payload now s = (.err 404, s) ∧
    delete_task task_id s = (.err 404, s) ∧
    ∀ s0 : Store, dbGet (delete_task task_id s0).2 task_id = none := by
  refine ⟨?_, ?_, ?_, ?_⟩
  · unfold get_task; rw [habs]
  · unfold update_task; rw [habs]
  · unfold delete_task; rw [habs]
  · intro s0
    unfold delete_task
    cases h : dbGet s0 task_id with
    | none => exact h
    | some t =>
      show dbGet _ task_id = none
      unfold dbGet
      refine List.find?_eq_none.mpr (fun u hu => ?_)
      have := (List.mem_filter.mp hu).2
      simpa using this

/-- Witness for C6: id 1 is absent from the fresh store, so the three
handlers all answer 404 without touching it. -/
theorem notfound_404_witness :
    get_task 1 initStore = (.err 404, initStore) ∧
    update_task 1 {} 0 initStore = (.err 404, initStore) ∧
    delete_task 1 initStore = (.err 404, initStore) ∧
    ∀ s0 : Store, dbGet (delete_task 1 s0).2 1 = none :=
  notfound_404 1 initStore rfl {} 0

/-!  ### C10  -/

/-- C10: when the update payload's description is the null value — which
the handler's `is not None` test cannot tell apart from an omitted field —
the stored description and the returned description are unchanged, so a
description can never be cleared back to null through the update. -/
theorem update_null_description (task_id : Nat) (s : Store) (t : TaskDB)
    (hfind : dbGet s task_id = some t) (payload : TaskUpdate)
    (hdesc : payload.description = none) (now : Int) :
    ∃ out s', update_task task_id payload now s = (.ok 200 out, s') ∧
      out.description = t.description ∧
      ∀ u ∈ s'.tasks, u.id = task_id → u.description = t.description := by
  have happ : (applyUpdate payload now t).description = t.description := by
    obtain ⟨a, b, c, d⟩ := payload
    cases hdesc
    cases a <;> cases c <;> cases d <;> simp [applyUpdate]
  unfold update_task
  rw [hfind]
  refine ⟨_, _, rfl, happ, ?_⟩
  intro u hu hid
  obtain ⟨v, hv, rfl⟩ := List.mem_map.mp hu
  by_cases hveq : v.id == task_id
  · rw [if_pos hveq]
    exact happ
  · rw [if_neg hveq] at hid
    exact absurd hid (by simpa using hveq)

/-- Witness for C10: updating the stored task's status with a null
description leaves its description "keep" in place. -/
theorem update_null_description_witness :
    ∃ out s',
      update_task 1 { status := some .completed } 9 descStore =
        (.ok 200 out, s') ∧
      out.description = some "keep" ∧
      ∀ u ∈ s'.tasks, u.id = 1 → u.description = some "keep" :=
  update_null_description 1 descStore
    { id := 1, title := "a", description := some "keep", status := "pending",
      due_date := 2, created_at := 0, updated_at := 0 }
    (by decide) { status := some .completed } rfl 9

/-!  ### C3  -/

/-- Field-by-field description of the row `update_task` writes back. -/
theorem applyUpdate_spec (payload : TaskUpdate) (now : Int) (t : TaskDB) :
    (applyUpdate payload now t).id = t.id ∧
    (applyUpdate payload now t).created_at = t.created_at ∧
    (applyUpdate payload now t).updated_at = now ∧
    (applyUpdate payload now t).title = payload.title.getD t.title ∧
    (applyUpdate payload now t).description =
      (match payload.description with
       | some d => some d
       | none => t.description) ∧
    (applyUpdate payload now t).status =
      (match payload.status with
       | some st => st.value
       | none => t.status) ∧
    (applyUpdate payload now t).due_date = payload.due_date.getD t.due_date := by
  obtain ⟨a, b, c, d⟩ := payload
  cases a <;> cases b <;> cases c <;> cases d <;> simp [applyUpdate]

/-- The in-place rewrite performed by the update handler keeps every
row's id, so the table's id column is unchanged. -/
theorem update_map_ids {s : Store} {task_id : Nat} {t0 : TaskDB}
    (hfind : dbGet s task_id = some t0) (payload : TaskUpdate) (now : Int) :
    (s.tasks.map
      (fun u => if u.id == task_id then applyUpdate payload now t0
                else u)).map TaskDB.id = s.tasks.map TaskDB.id := by
  rw [List.map_map]
  apply List.map_congr_left
  intro v hv
  by_cases hid : v.id == task_id
  · simp only [Function.comp_apply, if_pos hid]
    rw [(applyUpdate_spec payload now t0).1, dbGet_id hfind]
    exact ((beq_iff_eq).mp hid).symm
  · simp only [Function.comp_apply, if_neg hid]

/-- C3: partially updating an existing task returns 200 with the updated
record; the supplied fields take the supplied values, the absent fields
and id/created_at keep their old values, updated_at is set to now, the row
is rewritten in place, and every row with a different id is untouched. -/
theorem update_frame (task_id : Nat) (payload : TaskUpdate) (now : Int)
    (s : Store) (t : TaskDB) (hfind : dbGet s task_id = some t) :
    ∃ t' s',
      update_task task_id payload now s = (.ok 200 (TaskOut.ofDB t'), s') ∧
      t'.id = t.id ∧ t'.created_at = t.created_at ∧ t'.updated_at = now ∧
      t'.title = payload.title.getD t.title ∧
      t'.description = (match payload.description with
                        | some d => some d
                        | none => t.description) ∧
      t'.status = (match payload.status with
                   | some st => st.value
                   | none => t.status) ∧
      t'.due_date = payload.due_date.getD t.due_date ∧
      nextRowId s' = nextRowId s ∧
      s'.tasks = s.tasks.map
        (fun u => if u.id == task_id then t' else u) ∧
      ∀ u ∈ s.tasks, u.id ≠ task_id → u ∈ s'.tasks := by
  obtain ⟨h1, h2, h3, h4, h5, h6, h7⟩ := applyUpdate_spec payload now t
  refine ⟨applyUpdate payload now t,
    { tasks := s.tasks.map
        (fun u => if u.id == task_id then applyUpdate payload now t else u) },
    ?_, h1, h2, h3, h4, h5, h6, h7, ?_, rfl, ?_⟩
  · unfold update_task
    rw [hfind]
  · unfold nextRowId
    rw [update_map_ids hfind payload now]
  · intro u hu hne
    show u ∈ s.tasks.map _
    have heq : (if u.id == task_id then applyUpdate payload now t else u) = u :=
      if_neg (by simpa using hne)
    rw [← heq]
    exact List.mem_map_of_mem _ hu

/-- Witness for C3: updating only the status of the stored task. -/
theorem update_frame_witness :
    ∃ t' s',
      update_task 1 { status := some .completed } 9 descStore =
        (.ok 200 (TaskOut.ofDB t'), s') ∧
      t'.id = 1 ∧ t'.created_at = 0 ∧ t'.updated_at = 9 ∧
      t'.title = (none : Option String).getD "a" ∧
      t'.description = (match (none : Option String) with
                        | some d => some d
                        | none => some "keep") ∧
      t'.status = (match (some TaskStatus.completed : Option TaskStatus) with
                   | some st => st.value
                   | none => "pending") ∧
      t'.due_date = (none : Option Int).getD 2 ∧
      nextRowId s' = nextRowId descStore ∧
      s'.tasks = descStore.tasks.map
        (fun u => if u.id == 1 then t' else u) ∧
      ∀ u ∈ descStore.tasks, u.id ≠ 1 → u ∈ s'.tasks :=
  update_frame 1 { status := some .completed } 9 descStore
    { id := 1, title := "a", description := some "keep", status := "pending",
      due_date := 2, created_at := 0, updated_at := 0 }
    (by decide)

/-!  ### C4  -/

/-- C4: the returned total counts the matching tasks before pagination,
the returned page holds `min limit (total - offset)` items, every returned
item is (the projection of) a stored matching task; and concretely, with
the 3-task store and limit 2, offset 0 yields total 3 with 2 items while
offset 2 yields total 3 with 1 item. -/
theorem list_pagination (p : ListParams) (s : Store) :
    (list_tasks p s).total = (s.tasks.filter (matchesFilters p)).length ∧
    (list_tasks p s).items.length =
      min p.limit ((list_tasks p s).total - p.offset) ∧
    (∀ o ∈ (list_tasks p s).items,
      ∃ t ∈ s.tasks, matchesFilters p t = true ∧ o = TaskOut.ofDB t) ∧
    (list_tasks { limit := 2, offset := 0 } threeTasks).total = 3 ∧
    (list_tasks { limit := 2, offset := 0 } threeTasks).items.length = 2 ∧
    (list_tasks { limit := 2, offset := 2 } threeTasks).total = 3 ∧
    (list_tasks { limit := 2, offset := 2 } threeTasks).items.length = 1 := by
  refine ⟨?_, ?_, ?_, by decide, by decide, by decide, by decide⟩
  · simp [list_tasks, List.length_insertionSort]
  · simp [list_tasks, List.length_insertionSort]
  · intro o ho
    simp only [list_tasks, List.mem_map] at ho
    obtain ⟨t, ht, rfl⟩ := ho
    have ht2 : t ∈ (s.tasks.filter (matchesFilters p)).insertionSort
        (fun a b => sortLE p.sort p.order a b) :=
      ((List.take_sublist _ _).trans (List.drop_sublist _ _)).subset ht
    have ht3 := (List.mem_insertionSort _).mp ht2
    obtain ⟨hmem, hmatch⟩ := List.mem_filter.mp ht3
    exact ⟨t, hmem, hmatch, rfl⟩

/-!  ### C8  -/

/-- Filtering a duplicate-free table by one row's id keeps exactly that
row. -/
theorem filter_id_singleton {l : List TaskDB} {t : TaskDB}
    (hnodup : (l.map TaskDB.id).Nodup) (hmem : t ∈ l) :
    l.filter (fun u => u.id == t.id) = [t] := by
  induction l with
  | nil => cases hmem
  | cons a l ih =>
    rw [List.map_cons, List.nodup_cons] at hnodup
    obtain ⟨hna, hnd⟩ := hnodup
    rcases List.mem_cons.mp hmem with rfl | hmem
    · rw [List.filter_cons_of_pos (by simp)]
      have hnil : l.filter (fun u => u.id == t.id) = [] :=
        List.filter_eq_nil_iff.mpr (fun u hu h => hna (by
          have hid : u.id = t.id := by simpa using h
          exact hid ▸ List.mem_map_of_mem TaskDB.id hu))
      rw [hnil]
    · rw [List.filter_cons_of_neg, ih hnd hmem]
      intro h
      have hid : a.id = t.id := by simpa using h
      exact hna (hid ▸ List.mem_map_of_mem TaskDB.id hmem)

/-- C8: for a stored task, listing with the id filter (and no other
filters) returns total 1 and exactly that task. -/
theorem list_by_id (s : Store) (t : TaskDB) (hmem : t ∈ s.tasks)
    (hnodup : (s.tasks.map TaskDB.id).Nodup) :
    (list_tasks { task_id := some t.id } s).total = 1 ∧
    (list_tasks { task_id := some t.id } s).items = [TaskOut.ofDB t] := by
  have hfeq : s.tasks.filter (matchesFilters { task_id := some t.id }) =
      s.tasks.filter (fun u => u.id == t.id) :=
    List.filter_congr (fun u _ => by simp [matchesFilters])
  have hfilter := filter_id_singleton hnodup hmem
  constructor
  · simp [list_tasks, hfeq, hfilter, List.length_insertionSort]
  · simp [list_tasks, hfeq, hfilter]

/-- Witness for C8: filtering the 3-task store by id 2. -/
theorem list_by_id_witness :
    (list_tasks { task_id := some 2 } threeTasks).total = 1 ∧
    (list_tasks { task_id := some 2 } threeTasks).items =
      [TaskOut.ofDB
        { id := 2, title := "beta", description := some "b",
          status := "in_progress", due_date := 20, created_at := 2,
          updated_at := 2 }] :=
  list_by_id threeTasks
    { id := 2, title := "beta", description := some "b",
      status := "in_progress", due_date := 20, created_at := 2,
      updated_at := 2 }
    (by decide) (by decide)

/-!  ### C9  -/

/-- The ORDER BY comparison is the same read off rows or off returned
records. -/
theorem sortLE_ofDB (col : SortCol) (ord : SortOrder) (a b : TaskDB) :
    sortLEOut col ord (TaskOut.ofDB a) (TaskOut.ofDB b) = sortLE col ord a b := by
  cases col <;> cases ord <;> rfl

/-- C9: the returned items are sorted by the requested column in the
requested order, and the declared parameter defaults are due_date
ascending. -/
theorem list_sorted (p : ListParams) (s : Store) :
    (list_tasks p s).items.Pairwise
      (fun a b => sortLEOut p.sort p.order a b = true) ∧
    ({} : ListParams).sort = SortCol.due_date ∧
    ({} : ListParams).order = SortOrder.asc := by
  refine ⟨?_, rfl, rfl⟩
  haveI : IsTotal TaskDB (fun a b => sortLE p.sort p.order a b = true) :=
    ⟨fun a b => by
      cases p.order <;> simp only [sortLE, decide_eq_true_eq] <;>
        exact Int.le_total _ _⟩
  haveI : IsTrans TaskDB (fun a b => sortLE p.sort p.order a b = true) :=
    ⟨fun a b c h1 h2 => by
      cases hord : p.order <;>
        rw [hord] at h1 h2 <;>
        simp only [sortLE, decide_eq_true_eq] at h1 h2 ⊢
      · exact le_trans h1 h2
      · exact le_trans h2 h1⟩
  have hs := List.sorted_insertionSort
    (fun a b => sortLE p.sort p.order a b = true)
    (s.tasks.filter (matchesFilters p))
  have hw := List.Pairwise.sublist
    ((List.take_sublist p.limit _).trans (List.drop_sublist p.offset _)) hs
  exact List.Pairwise.map TaskOut.ofDB
    (fun a b h => by rw [sortLE_ofDB]; exact h) hw

/-!  ### C5  -/

/-- C5 counterexample: with one stored task titled "ba" and the query
"a " (trailing space), the handler returns the task — it strips the query
to "a" before searching — although "ba" does not contain "a " as a
case-insensitive substring.  The q filter is therefore not literal
case-insensitive substring containment of q. -/
theorem list_q_claim_cex :
    (list_tasks { q := some "a " } qStore).items.map TaskOut.title = ["ba"] ∧
    containsCI "ba" "a " = false := by decide

/-- Returned records determine the stored row. -/
theorem TaskOut.ofDB_inj {a b : TaskDB} (h : TaskOut.ofDB a = TaskOut.ofDB b) :
    a = b := by
  cases a
  cases b
  simpa [TaskOut.ofDB] using h

/-- With only the q filter set, the WHERE clause is exactly the stripped
LIKE search on the title. -/
theorem matchesFilters_q (qs : String) (lim : Nat) (u : TaskDB) :
    matchesFilters { q := some qs, limit := lim } u =
      qTitleMatches qs u.title := by
  obtain ⟨data⟩ := qs
  cases data with
  | nil => rfl
  | cons c cs => rfl

/-- C5 (amended): listing with the q filter keeps exactly those tasks
whose title matches the case-insensitive LIKE pattern `%q.strip()%` — the
query is stripped of surrounding whitespace first, `%` and `_` in it act
as wildcards, and a query that strips to nothing applies no filter; stated
with the page wide enough to hold the whole store. -/
theorem list_q_filter (s : Store) (qs : String) (lim : Nat)
    (hlim : s.tasks.length ≤ lim) (t : TaskDB) (ht : t ∈ s.tasks) :
    TaskOut.ofDB t ∈ (list_tasks { q := some qs, limit := lim } s).items ↔
      qTitleMatches qs t.title = true := by
  have hlen : ((s.tasks.filter
      (matchesFilters { q := some qs, limit := lim })).insertionSort
      (fun a b => sortLE SortCol.due_date SortOrder.asc a b)).length ≤ lim := by
    rw [List.length_insertionSort]
    exact le_trans (List.length_filter_le _ _) hlim
  have hitems : (list_tasks { q := some qs, limit := lim } s).items =
      ((s.tasks.filter
        (matchesFilters { q := some qs, limit := lim })).insertionSort
        (fun a b => sortLE SortCol.due_date SortOrder.asc a b)).map
        TaskOut.ofDB := by
    show ((((s.tasks.filter
        (matchesFilters { q := some qs, limit := lim })).insertionSort
        (fun a b => sortLE SortCol.due_date SortOrder.asc a b)).drop 0).take
        lim).map TaskOut.ofDB = _
    rw [List.drop_zero, List.take_of_length_le hlen]
  rw [hitems]
  constructor
  · intro hmem
    obtain ⟨u, hu, hequ⟩ := List.mem_map.mp hmem
    obtain rfl := TaskOut.ofDB_inj hequ
    have hu2 := (List.mem_insertionSort _).mp hu
    have hu3 := (List.mem_filter.mp hu2).2
    rwa [matchesFilters_q] at hu3
  · intro hmatch
    apply List.mem_map_of_mem
    apply (List.mem_insertionSort _).mpr
    exact List.mem_filter.mpr ⟨ht, by rwa [matchesFilters_q]⟩

/-- Witness for the amended C5 at the "ba" store and query "a ". -/
theorem list_q_filter_witness :
    TaskOut.ofDB
        { id := 1, title := "ba", description := none, status := "pending",
          due_date := 5, created_at := 0, updated_at := 0 } ∈
      (list_tasks { q := some "a ", limit := 5 } qStore).items ↔
      qTitleMatches "a " "ba" = true :=
  list_q_filter qStore "a " 5 (by decide)
    { id := 1, title := "ba", description := none, status := "pending",
      due_date := 5, created_at := 0, updated_at := 0 }
    (by decide)

/-!  ### C7  -/

/-- The enum can only produce the three enumerated strings. -/
theorem TaskStatus.value_ok (st : TaskStatus) :
    st.value = "pending" ∨ st.value = "in_progress" ∨
      st.value = "completed" := by
  cases st <;> simp [TaskStatus.value]

/-- The update handler writes a valid status: either the supplied enum
member's string, or the row's previous (valid) status. -/
theorem statusOk_applyUpdate {t : TaskDB} (h : statusOk t)
    (payload : TaskUpdate) (now : Int) :
    statusOk (applyUpdate payload now t) := by
  obtain ⟨_, _, _, _, _, h6, _⟩ := applyUpdate_spec payload now t
  unfold statusOk at h ⊢
  rw [h6]
  cases payload.status with
  | none => exact h
  | some st => exact TaskStatus.value_ok st

/-- Case split on what one request does to the store: nothing (validation
failure or 404), append a freshly built row with the SQLite-assigned id,
rewrite the found row in place, or drop the rows with the deleted id. -/
theorem execOp_store (op : Op) (now : Int) (s : Store) :
    execOp op now s = s ∨
    (∃ payload : TaskCreate,
      execOp op now s =
        { tasks := s.tasks ++
            [{ id := nextRowId s, title := payload.title,
               description := payload.description,
               status := payload.status.value,
               due_date := payload.due_date,
               created_at := now, updated_at := now }] }) ∨
    (∃ task_id payload t, dbGet s task_id = some t ∧
      execOp op now s =
        { tasks := s.tasks.map
            (fun u => if u.id == task_id then applyUpdate payload now t
                      else u) }) ∨
    (∃ task_id, op = Op.delete task_id ∧
      execOp op now s =
        { tasks := s.tasks.filter (fun u => u.id != task_id) }) := by
  cases op with
  | create r =>
    simp only [execOp, post_tasks]
    cases validateTaskCreate r with
    | error code => exact Or.inl rfl
    | ok payload => exact Or.inr (Or.inl ⟨payload, rfl⟩)
  | update task_id payload =>
    simp only [execOp, update_task]
    cases h : dbGet s task_id with
    | none => exact Or.inl rfl
    | some t => exact Or.inr (Or.inr (Or.inl ⟨task_id, payload, t, h, rfl⟩))
  | delete task_id =>
    simp only [execOp, delete_task]
    cases dbGet s task_id with
    | none => exact Or.inl rfl
    | some t => exact Or.inr (Or.inr (Or.inr ⟨task_id, rfl, rfl⟩))

/-- The invariant only loosens as the clock advances. -/
theorem Inv.relax {c c' : Int} {s : Store} (hinv : Inv c s) (h : c ≤ c') :
    Inv c' s :=
  ⟨hinv.status_ok,
   fun t ht => ⟨(hinv.times t ht).1, le_trans (hinv.times t ht).2 h⟩,
   hinv.ids_nodup⟩

/-- One request at a time `now` at or after the clock preserves the
invariant. -/
theorem Inv.step {c : Int} {s : Store} (hinv : Inv c s) (op : Op)
    (now : Int) (hc : c ≤ now) : Inv now (execOp op now s) := by
  rcases execOp_store op now s with heq | ⟨payload, heq⟩ |
    ⟨task_id, payload, t0, hfind, heq⟩ | ⟨task_id, hop, heq⟩ <;> rw [heq]
  · exact hinv.relax hc
  · refine ⟨?_, ?_, ?_⟩
    · intro u hu
      rcases List.mem_append.mp hu with h | h
      · exact hinv.status_ok u h
      · rcases List.mem_singleton.mp h with rfl
        exact TaskStatus.value_ok payload.status
    · intro u hu
      rcases List.mem_append.mp hu with h | h
      · exact ⟨(hinv.times u h).1, le_trans (hinv.times u h).2 hc⟩
      · rcases List.mem_singleton.mp h with rfl
        exact ⟨le_refl now, le_refl now⟩
    · simp only [List.map_append, List.map_cons, List.map_nil]
      refine List.nodup_append.mpr ⟨hinv.ids_nodup, List.nodup_singleton _, ?_⟩
      intro a ha hb
      rcases List.mem_singleton.mp hb with rfl
      obtain ⟨u, hu, huid⟩ := List.mem_map.mp ha
      exact nextRowId_fresh hu huid
  · obtain ⟨ha1, ha2, ha3, _, _, _, _⟩ := applyUpdate_spec payload now t0
    have ht0mem := dbGet_mem hfind
    refine ⟨?_, ?_, ?_⟩
    · intro u hu
      obtain ⟨v, hv, rfl⟩ := List.mem_map.mp hu
      by_cases hid : v.id == task_id
      · rw [if_pos hid]
        exact statusOk_applyUpdate (hinv.status_ok t0 ht0mem) payload now
      · rw [if_neg hid]
        exact hinv.status_ok v hv
    · intro u hu
      obtain ⟨v, hv, rfl⟩ := List.mem_map.mp hu
      by_cases hid : v.id == task_id
      · rw [if_pos hid]
        constructor
        · rw [ha2, ha3]
          exact le_trans (hinv.times t0 ht0mem).1
            (le_trans (hinv.times t0 ht0mem).2 hc)
        · rw [ha3]
      · rw [if_neg hid]
        exact ⟨(hinv.times v hv).1, le_trans (hinv.times v hv).2 hc⟩
    · rw [update_map_ids hfind payload now]
      exact hinv.ids_nodup
  · refine ⟨?_, ?_, ?_⟩
    · intro u hu
      exact hinv.status_ok u (List.mem_of_mem_filter hu)
    · intro u hu
      have h := List.mem_of_mem_filter hu
      exact ⟨(hinv.times u h).1, le_trans (hinv.times u h).2 hc⟩
    · exact ((List.filter_sublist _).map TaskDB.id).nodup hinv.ids_nodup

/-- After one request, a stored task either survives with its id and
created_at intact, or the request was precisely the delete of its id:
no operation ever rewrites the id or created_at of a row it keeps. -/
theorem execOp_track {c : Int} {s : Store} (hinv : Inv c s) (op : Op)
    (now : Int) (t : TaskDB) (ht : t ∈ s.tasks) :
    (∃ t1 ∈ (execOp op now s).tasks,
        t1.id = t.id ∧ t1.created_at = t.created_at) ∨
      op = Op.delete t.id := by
  rcases execOp_store op now s with heq | ⟨payload, heq⟩ |
    ⟨task_id, payload, t0, hfind, heq⟩ | ⟨task_id, hop, heq⟩ <;> rw [heq]
  · exact Or.inl ⟨t, ht, rfl, rfl⟩
  · exact Or.inl ⟨t, List.mem_append_left _ ht, rfl, rfl⟩
  · left
    by_cases hid : t.id == task_id
    · have hteq : t0 = t := List.inj_on_of_nodup_map hinv.ids_nodup
        (dbGet_mem hfind) ht
        (by rw [dbGet_id hfind]; exact ((beq_iff_eq).mp hid).symm)
      refine ⟨applyUpdate payload now t0, ?_, ?_, ?_⟩
      · refine List.mem_map.mpr ⟨t, ht, ?_⟩
        show (if t.id == task_id then applyUpdate payload now t0 else t) = _
        rw [if_pos hid]
      · rw [(applyUpdate_spec payload now t0).1, hteq]
      · rw [(applyUpdate_spec payload now t0).2.1, hteq]
    · refine ⟨t, ?_, rfl, rfl⟩
      refine List.mem_map.mpr ⟨t, ht, ?_⟩
      show (if t.id == task_id then applyUpdate payload now t0 else t) = _
      rw [if_neg hid]
  · by_cases hid : t.id == task_id
    · right
      rw [hop, (beq_iff_eq).mp hid]
    · left
      exact ⟨t, List.mem_filter.mpr ⟨ht, by simpa using hid⟩, rfl, rfl⟩

/-- Running a prefix keeps the invariant at some clock that still bounds
the remaining timestamps. -/
theorem execSeq_inv_mono (l1 l2 : List (Op × Int)) {c : Int} {s : Store}
    (hinv : Inv c s) (hmono : MonoFrom c (l1 ++ l2)) :
    ∃ c', Inv c' (execSeq l1 s) ∧ MonoFrom c' l2 := by
  induction l1 generalizing c s with
  | nil => exact ⟨c, hinv, hmono⟩
  | cons x rest ih =>
    obtain ⟨hc, hrest⟩ := hmono
    exact ih (hinv.step x.1 x.2 hc) hrest

/-- Executing an appended sequence is executing the parts in order. -/
theorem execSeq_append (l1 l2 : List (Op × Int)) (s : Store) :
    execSeq (l1 ++ l2) s = execSeq l2 (execSeq l1 s) := by
  induction l1 generalizing s with
  | nil => rfl
  | cons x rest ih => exact ih _

/-- The fresh database satisfies the invariant at any clock. -/
theorem inv_initStore (c : Int) : Inv c initStore :=
  ⟨fun t ht => absurd ht (List.not_mem_nil t),
   fun t ht => absurd ht (List.not_mem_nil t), List.nodup_nil⟩

/-- C7 counterexample: ids are reused, so id-keyed stability across a
whole request sequence fails.  Run create, delete, create: the first task
gets id 1 (created_at 0), it is deleted, and SQLite assigns the freed
maximal id 1 to the second create (INTEGER PRIMARY KEY without
AUTOINCREMENT takes max(id)+1, which is 1 again on the emptied table).
The final store then holds a task with the previously observed id 1 but
created_at 2 — although all timestamps are nondecreasing. -/
theorem store_invariants_cex :
    MonoFrom 0 cexOps ∧
    ¬ (∀ l1 l2, cexOps = l1 ++ l2 →
        ∀ t ∈ (execSeq l1 initStore).tasks,
        ∀ t' ∈ (execSeq cexOps initStore).tasks,
          t'.id = t.id → t'.created_at = t.created_at) := by
  constructor
  · exact ⟨by norm_num, by norm_num, by norm_num, trivial⟩
  · intro h
    have hc := h
      [(.create { title := "a", description := none, due_date := 5,
                  status := none }, 0)]
      [(.delete 1, 1),
       (.create { title := "b", description := none, due_date := 6,
                  status := none }, 2)]
      rfl
      { id := 1, title := "a", description := none, status := "pending",
        due_date := 5, created_at := 0, updated_at := 0 }
      (by decide)
      { id := 1, title := "b", description := none, status := "pending",
        due_date := 6, created_at := 2, updated_at := 2 }
      (by decide) rfl
    exact absurd hc (by decide)

/-- C7 (amended): along any create/update/delete sequence with
nondecreasing timestamps, every reachable store has only tasks whose
status is one of the three enumerated values and whose updated_at is at
least created_at; and no operation changes the id or created_at of a task
it keeps: at every step, each stored task either survives the step with
its id and created_at intact, or the step is exactly the delete of its
id.  (Deleting the task with the largest id frees that id for reuse by a
later create, so a later, distinct task may bear a previously observed
id.) -/
theorem store_invariants (c0 : Int) (ops : List (Op × Int))
    (hmono : MonoFrom c0 ops) :
    (∀ t ∈ (execSeq ops initStore).tasks,
      statusOk t ∧ t.created_at ≤ t.updated_at) ∧
    (∀ l1 x l2, ops = l1 ++ x :: l2 →
      ∀ t ∈ (execSeq l1 initStore).tasks,
        (∃ t1 ∈ (execOp x.1 x.2 (execSeq l1 initStore)).tasks,
            t1.id = t.id ∧ t1.created_at = t.created_at) ∨
          x.1 = Op.delete t.id) := by
  constructor
  · obtain ⟨c', hinv, _⟩ := execSeq_inv_mono ops [] (inv_initStore c0)
      (by rwa [List.append_nil])
    intro u hu
    exact ⟨hinv.status_ok u hu, (hinv.times u hu).1⟩
  · rintro l1 x l2 rfl t ht
    obtain ⟨c', hinv, hm2⟩ := execSeq_inv_mono l1 (x :: l2)
      (inv_initStore c0) hmono
    exact execOp_track hinv x.1 x.2 t ht

/-- Witness for the amended C7 on the sample request sequence. -/
theorem store_invariants_witness :
    (∀ t ∈ (execSeq demoOps initStore).tasks,
      statusOk t ∧ t.created_at ≤ t.updated_at) ∧
    (∀ l1 x l2, demoOps = l1 ++ x :: l2 →
      ∀ t ∈ (execSeq l1 initStore).tasks,
        (∃ t1 ∈ (execOp x.1 x.2 (execSeq l1 initStore)).tasks,
            t1.id = t.id ∧ t1.created_at = t.created_at) ∨
          x.1 = Op.delete t.id) :=
  store_invariants 0 demoOps
    (by refine ⟨?_, ?_, ?_, ?_, trivial⟩ <;> norm_num)

end TaskApi
